import Mathlib

/-!
Verification of the umai repository (NestJS backend + Vue frontend).

JavaScript strings are embedded as lists of characters (`Str`), and the
string operations the code uses (`trim`, `split`, `toLowerCase`,
`endsWith`, truthiness) are modelled faithfully on that representation.
The S3 service, the configuration service, the security middleware and
the menu client service are embedded as pure functions; the S3 SDK is
modelled by an explicit action type together with an outcome oracle, so
that the bootstrap sequence appears as a trace of issued commands.
-/

set_option maxRecDepth 8000

/-- JavaScript strings, embedded as lists of characters. -/
abbrev Str := List Char

/-- Turn a Lean string literal into the embedded representation. -/
def lit (s : String) : Str := s.toList

/-- The ASCII whitespace characters removed by JavaScript's trim. -/
def jsWS (c : Char) : Bool :=
  c == ' ' || c == '\t' || c == '\n' || c == '\r' || c == '\x0b' || c == '\x0c'

/-- Remove leading whitespace, as in String.prototype.trimStart. -/
def trimLeft (s : Str) : Str := s.dropWhile jsWS

/-- Remove trailing whitespace, as in String.prototype.trimEnd. -/
def trimRight : Str → Str
  | [] => []
  | c :: rest =>
    match trimRight rest with
    | [] => if jsWS c then [] else [c]
    | r => c :: r

/-- String.prototype.trim: remove whitespace at both ends. -/
def trim (s : Str) : Str := trimRight (trimLeft s)

/-- String.prototype.split with a one-character separator:
always returns at least one (possibly empty) segment. -/
def splitCh (sep : Char) : Str → List Str
  | [] => [[]]
  | c :: rest =>
    if c = sep then
      [] :: splitCh sep rest
    else
      match splitCh sep rest with
      | [] => [[c]]
      | s :: ss => (c :: s) :: ss

/-- The first segment of a split, i.e. s.split(sep)[0]. -/
def takeUntil (sep : Char) (s : Str) : Str := s.takeWhile (fun c => c ≠ sep)

/-- ASCII lowercasing of one character, as toLowerCase acts on ASCII. -/
def lowerChar (c : Char) : Char :=
  if 'A' ≤ c ∧ c ≤ 'Z' then Char.ofNat (c.toNat + 32) else c

/-- String.prototype.toLowerCase on the ASCII range. -/
def toLower (s : Str) : Str := s.map lowerChar

/-- String.prototype.endsWith for a one-character suffix. -/
def endsWithChar (c : Char) (s : Str) : Bool := s.getLast? == some c

/-! ## Configuration service (src/backend/src/common/config/config.service.ts) -/

/-- The environment variables the modelled getters read; `none` means the
variable is not set. -/
structure EnvVars where
  jwtSecretVar : Option Str
  jwtExpirationVar : Option Str
  s3AccessEndpointVar : Option Str
  s3ResponseEndpointVar : Option Str
  s3RegionVar : Option Str
  s3AccessKeyVar : Option Str
  s3SecretKeyVar : Option Str
  s3BucketVar : Option Str
  s3ImagePrefixVar : Option Str
  s3PathStyleVar : Option Str
  nodeEnvironmentVar : Option Str
  securityAllowedHostsVar : Option Str
  securityCorsOriginsVar : Option Str

structure JwtConfig where
  secret : Str
  expiresIn : Str
deriving DecidableEq

structure SecurityConfig where
  backendCorsOrigins : List Str
  allowedHosts : List Str
deriving DecidableEq

structure S3Config where
  accessEndpoint : Str
  responseEndpoint : Str
  region : Str
  accessKeyId : Str
  secretAccessKey : Str
  bucket : Str
  imagePrefix : Str
  usePathStyle : Bool
deriving DecidableEq

namespace AppConfigService

/-- AppConfigService.getRaw for string-valued variables: trim the raw
value and treat a blank result as unset. -/
def getRaw (raw : Option Str) : Option Str :=
  match raw with
  | some s => if (trim s).isEmpty then none else some (trim s)
  | none => none

/-- AppConfigService.get for string-valued variables with a declared
default. -/
def get (raw : Option Str) (defaultValue : Str) : Str :=
  match getRaw raw with
  | some v => v
  | none => defaultValue

/-- The S3_PATH_STYLE getter as observed through its only consumer: the
TypeScript getter returns the raw trimmed string when the variable is set
and the default `true` otherwise, and the constructor wraps the result in
Boolean(...); a non-empty string and `true` both coerce to `true`. -/
def usePathStyleOf (raw : Option Str) : Bool :=
  match getRaw raw with
  | some _ => true
  | none => true

/-- The jwt getter. -/
def jwt (e : EnvVars) : JwtConfig :=
  { secret := get e.jwtSecretVar (lit "changeme"),
    expiresIn := get e.jwtExpirationVar (lit "720h") }

/-- The s3 getter. -/
def s3 (e : EnvVars) : S3Config :=
  { accessEndpoint := get e.s3AccessEndpointVar (lit "http://localhost:9000"),
    responseEndpoint := get e.s3ResponseEndpointVar (lit "http://localhost:9000"),
    region := get e.s3RegionVar (lit "ap-northeast-2"),
    accessKeyId := get e.s3AccessKeyVar (lit "minio"),
    secretAccessKey := get e.s3SecretKeyVar (lit "minio123"),
    bucket := get e.s3BucketVar (lit "jinaq-media"),
    imagePrefix := get e.s3ImagePrefixVar (lit "images"),
    usePathStyle := usePathStyleOf e.s3PathStyleVar }

/-- The nodeEnv getter. -/
def nodeEnv (e : EnvVars) : Str := get e.nodeEnvironmentVar (lit "development")

/-- The isProduction getter. -/
def isProduction (e : EnvVars) : Bool := nodeEnv e == lit "production"

/-- The security getter: allowedHosts is split on ',', per-entry trimmed
and filtered of empties; backendCorsOrigins is only split on ','. -/
def security (e : EnvVars) : SecurityConfig :=
  let whitelist :=
    ((splitCh ',' (get e.securityAllowedHostsVar (lit ""))).map trim).filter
      (fun x => !x.isEmpty)
  { backendCorsOrigins := splitCh ',' (get e.securityCorsOriginsVar (lit "")),
    allowedHosts := whitelist }

end AppConfigService

/-! ## Security middleware (src/backend/src/common/middleware/security.middleware.ts) -/

/-- What a middleware invocation does: proceed to next(), or throw a
BadRequestException with the given message. -/
inductive MiddlewareResult where
  | proceed
  | badRequest (message : Str)
deriving DecidableEq

namespace SecurityMiddleware

/-- SecurityMiddleware.use: strip a ':port' suffix from the host header;
reject only when the allow-list is non-empty, the stripped host is a
non-empty string (JavaScript truthiness), and it is not in the list. -/
def use (allowedHosts : List Str) (hostHeader : Option Str) : MiddlewareResult :=
  let host := hostHeader.map (fun s => takeUntil ':' s)
  match host with
  | some h =>
    if allowedHosts.length > 0 && !h.isEmpty && !(allowedHosts.contains h) then
      MiddlewareResult.badRequest (lit "Invalid Host Header")
    else
      MiddlewareResult.proceed
  | none => MiddlewareResult.proceed

end SecurityMiddleware

/-! ## S3 service (src/common/s3/s3.service.ts) -/

/-- The SDK commands the service issues, with their parameters. -/
inductive S3Action where
  | headBucket (bucket : Str)
  | createBucket (bucket : Str)
  | putBucketPolicy (bucket : Str) (policy : Str)
  | putObject (bucket : Str) (key : Str) (body : Str)
  | deleteObject (bucket : Str) (key : Str)
deriving DecidableEq

/-- Outcome oracle for SDK calls: `ok a = true` means the awaited call
resolves, `false` means it rejects (throws). -/
structure S3Env where
  ok : S3Action → Bool

/-- The parameters handed to the multipart Upload helper by uploadObject. -/
structure UploadParams (β : Type) where
  bucket : Str
  key : Str
  body : β
  contentType : Str
  contentDisposition : Str
  acl : Str

namespace S3Service

/-- The JSON.stringify rendering of the public-read bucket policy. -/
def bucketPolicyJson (bucket : Str) : Str :=
  lit "\x7b\"Version\":\"2012-10-17\",\"Statement\":[\x7b\"Effect\":\"Allow\",\"Principal\":\x7b\"AWS\":[\"*\"]\x7d,\"Action\":[\"s3:GetObject\"],\"Resource\":[\"arn:aws:s3:::"
    ++ bucket ++ lit "/*\"]\x7d]\x7d"

/-- ensureBucketExists: HeadBucket, and on failure CreateBucket (whose
failure propagates). Returns the issued commands and whether the method
completed without throwing. -/
def ensureBucketExists (env : S3Env) (bucket : Str) : List S3Action × Bool :=
  if env.ok (S3Action.headBucket bucket) then
    ([S3Action.headBucket bucket], true)
  else
    ([S3Action.headBucket bucket, S3Action.createBucket bucket],
      env.ok (S3Action.createBucket bucket))

/-- ensureBucketPolicy: a single PutBucketPolicy whose failure is caught
and logged, never rethrown, so the method always completes. -/
def ensureBucketPolicy (bucket : Str) : List S3Action × Bool :=
  ([S3Action.putBucketPolicy bucket (bucketPolicyJson bucket)], true)

/-- ensurePrefixObject: upload a zero-byte object at the prefix key
(the prefix, '/'-terminated); failure is caught and logged. -/
def ensurePrefixObject (cfg : S3Config) : List S3Action × Bool :=
  let p := S3Config.imagePrefix cfg
  let key := if endsWithChar '/' p then p else p ++ lit "/"
  ([S3Action.putObject cfg.bucket key []], true)

/-- Sequential await of two bootstrap steps: the second runs only when
the first did not throw. -/
def andThen (s t : List S3Action × Bool) : List S3Action × Bool :=
  if s.2 then (s.1 ++ t.1, t.2) else s

/-- onModuleInit: ensureBucketExists, then ensureBucketPolicy, then
ensurePrefixObject, each awaited in order. -/
def onModuleInit (env : S3Env) (cfg : S3Config) : List S3Action × Bool :=
  andThen
    (andThen (ensureBucketExists env cfg.bucket) (ensureBucketPolicy cfg.bucket))
    (ensurePrefixObject cfg)

/-- The deny list of dangerous content types. -/
def dangerous : List Str :=
  [lit "text/html", lit "application/xhtml+xml", lit "image/svg+xml",
   lit "text/xml", lit "application/xml"]

/-- sanitizeContentType: lowercase, take the part before the first ';',
trim; members of the deny list become 'text/plain', anything else is
returned unchanged. -/
def sanitizeContentType (contentType : Str) : Str :=
  let normalized := trim (takeUntil ';' (toLower contentType))
  if normalized ∈ dangerous then lit "text/plain" else contentType

/-- uploadObject: the Upload parameters it sends and the key it returns. -/
def uploadObject {β : Type} (cfg : S3Config) (key : Str) (body : β)
    (contentType : Str) : UploadParams β × Str :=
  let sanitizedContentType := sanitizeContentType contentType
  ({ bucket := cfg.bucket, key := key, body := body,
     contentType := sanitizedContentType,
     contentDisposition := lit "inline", acl := lit "public-read" }, key)

/-- uploadImage: prepend the image prefix and a '/' to the filename and
delegate to uploadObject. -/
def uploadImage {β : Type} (cfg : S3Config) (filename : Str) (body : β)
    (contentType : Str) : UploadParams β × Str :=
  let key := S3Config.imagePrefix cfg ++ lit "/" ++ filename
  uploadObject cfg key body contentType

/-- delete: the DeleteObject command sent for a key. -/
def delete (cfg : S3Config) (key : Str) : S3Action :=
  S3Action.deleteObject cfg.bucket key

end S3Service

/-! ## Menu client service (src/frontend/src/modules/menu/services/menu.service.ts) -/

namespace MenuService

/-- The base URL of the menu endpoint. -/
def baseUrl : Str := lit "/api/v1/menu"

/-- getMenu: issue a request for baseUrl/restaurantId through the given
transport (ky followed by .json()), returning the parsed body. -/
def getMenu {β : Type} (fetchJson : Str → β) (restaurantId : Str) : β :=
  fetchJson (baseUrl ++ lit "/" ++ restaurantId)

end MenuService

namespace MENU_QUERY_KEYS

/-- MENU_QUERY_KEYS.all. -/
def all : List Str := [lit "menu"]

/-- MENU_QUERY_KEYS.byRestaurant. -/
def byRestaurant (restaurantId : Str) : List Str := all ++ [restaurantId]

end MENU_QUERY_KEYS

/-! ## Shared concrete inputs -/

/-- An environment with every variable unset. -/
def envAllNone : EnvVars :=
  { jwtSecretVar := none, jwtExpirationVar := none, s3AccessEndpointVar := none,
    s3ResponseEndpointVar := none, s3RegionVar := none, s3AccessKeyVar := none,
    s3SecretKeyVar := none, s3BucketVar := none, s3ImagePrefixVar := none,
    s3PathStyleVar := none, nodeEnvironmentVar := none,
    securityAllowedHostsVar := none, securityCorsOriginsVar := none }

/-- The S3 configuration obtained from an empty environment. -/
def cfgDefault : S3Config := AppConfigService.s3 envAllNone

/-- An SDK oracle under which only PutBucketPolicy rejects. -/
def envPolicyFails : S3Env :=
  ⟨fun a => match a with
    | S3Action.putBucketPolicy _ _ => false
    | _ => true⟩

/-- A variable that is unset, or set to a string that trims to empty. -/
def blankVar (v : Option Str) : Prop :=
  v = none ∨ ∃ s, v = some s ∧ trim s = []

/-- The host-rejection condition exactly as the specification claims it:
allow-list non-empty, header present, and the port-stripped host not in
the list (with no requirement that the stripped host be non-empty). -/
def hostRejectSpec (allowedHosts : List Str) (hostHeader : Option Str) : Prop :=
  allowedHosts ≠ [] ∧ ∃ s, hostHeader = some s ∧ takeUntil ':' s ∉ allowedHosts

/-! ## Claim theorems -/

/-- C1: for every content-type string passed to uploadObject, the
ContentType sent to the object store is 'text/plain' when the lowercased
media type (the part before the first ';', trimmed) is one of the five
dangerous types, and is the original input string unchanged otherwise. -/
theorem uploadObject_sanitizes_contentType {β : Type} (cfg : S3Config) (key : Str)
    (body : β) (contentType : Str) :
    (S3Service.uploadObject cfg key body contentType).1.contentType =
      if trim (takeUntil ';' (toLower contentType)) = lit "text/html" ∨
         trim (takeUntil ';' (toLower contentType)) = lit "application/xhtml+xml" ∨
         trim (takeUntil ';' (toLower contentType)) = lit "image/svg+xml" ∨
         trim (takeUntil ';' (toLower contentType)) = lit "text/xml" ∨
         trim (takeUntil ';' (toLower contentType)) = lit "application/xml"
      then lit "text/plain" else contentType := by
  simp only [S3Service.uploadObject, S3Service.sanitizeContentType, S3Service.dangerous,
    List.mem_cons, List.not_mem_nil, or_false]

/-- C10: sanitizeContentType is idempotent: its only rewritten output
'text/plain' is not itself in the deny list. -/
theorem sanitizeContentType_idempotent (c : Str) :
    S3Service.sanitizeContentType (S3Service.sanitizeContentType c) =
      S3Service.sanitizeContentType c := by
  by_cases h : trim (takeUntil ';' (toLower c)) ∈ S3Service.dangerous
  · have h1 : S3Service.sanitizeContentType c = lit "text/plain" := by
      simp [S3Service.sanitizeContentType, h]
    rw [h1]
    decide
  · have h1 : S3Service.sanitizeContentType c = c := by
      simp [S3Service.sanitizeContentType, h]
    rw [h1]
    exact h1

/-- C3: when the allow-list is non-empty but the request has no host
header, the middleware never rejects: it calls next(). -/
theorem use_missing_host_not_rejected (allowedHosts : List Str)
    (_h : allowedHosts ≠ []) :
    SecurityMiddleware.use allowedHosts none = MiddlewareResult.proceed := rfl

/-- Witness for C3 at a concrete non-empty allow-list. -/
theorem use_missing_host_not_rejected_witness :
    ([lit "example.com"] : List Str) ≠ [] ∧
      SecurityMiddleware.use [lit "example.com"] none = MiddlewareResult.proceed :=
  ⟨by decide, use_missing_host_not_rejected [lit "example.com"] (by decide)⟩

/-- C8: uploadImage uploads to the configured bucket under the key
prefix/filename and returns exactly that key; delete issues a
DeleteObject for exactly the given key in the configured bucket. -/
theorem uploadImage_and_delete_keys {β : Type} (cfg : S3Config) (filename : Str)
    (body : β) (contentType : Str) (key : Str) :
    (S3Service.uploadImage cfg filename body contentType).1.bucket = cfg.bucket ∧
    (S3Service.uploadImage cfg filename body contentType).1.key =
      S3Config.imagePrefix cfg ++ lit "/" ++ filename ∧
    (S3Service.uploadImage cfg filename body contentType).2 =
      S3Config.imagePrefix cfg ++ lit "/" ++ filename ∧
    S3Service.delete cfg key = S3Action.deleteObject cfg.bucket key := by
  refine ⟨rfl, rfl, rfl, rfl⟩

/-- C9: getMenu requests '/api/v1/menu/' ++ restaurantId through the
transport and returns its parsed body; the query key is ['menu', id],
which is injective in the restaurant identifier. -/
theorem getMenu_url_and_query_key {β : Type} (fetchJson : Str → β)
    (restaurantId : Str) :
    MenuService.getMenu fetchJson restaurantId =
      fetchJson (lit "/api/v1/menu/" ++ restaurantId) ∧
    MENU_QUERY_KEYS.byRestaurant restaurantId = [lit "menu", restaurantId] ∧
    ∀ r₁ r₂ : Str,
      MENU_QUERY_KEYS.byRestaurant r₁ = MENU_QUERY_KEYS.byRestaurant r₂ ↔ r₁ = r₂ := by
  have hbase : MenuService.baseUrl ++ lit "/" = lit "/api/v1/menu/" := by decide
  refine ⟨?_, rfl, ?_⟩
  · show fetchJson (MenuService.baseUrl ++ lit "/" ++ restaurantId) = _
    rw [List.append_assoc, ← List.append_assoc, hbase]
  · intro r₁ r₂
    simp [MENU_QUERY_KEYS.byRestaurant, MENU_QUERY_KEYS.all]

/-- C4: ensureBucketPolicy and ensurePrefixObject swallow their failures,
so when the bucket-existence step completes, onModuleInit runs all three
steps and finishes even though the PutBucketPolicy call fails. -/
theorem onModuleInit_policy_failure_nonfatal (env : S3Env) (cfg : S3Config)
    (_hpol : env.ok (S3Action.putBucketPolicy cfg.bucket
      (S3Service.bucketPolicyJson cfg.bucket)) = false)
    (hbkt : (S3Service.ensureBucketExists env cfg.bucket).2 = true) :
    (S3Service.ensureBucketPolicy cfg.bucket).2 = true ∧
    (S3Service.ensurePrefixObject cfg).2 = true ∧
    S3Service.onModuleInit env cfg =
      ((S3Service.ensureBucketExists env cfg.bucket).1
        ++ (S3Service.ensureBucketPolicy cfg.bucket).1
        ++ (S3Service.ensurePrefixObject cfg).1, true) := by
  refine ⟨rfl, rfl, ?_⟩
  simp [S3Service.onModuleInit, S3Service.andThen, hbkt,
    S3Service.ensureBucketPolicy, S3Service.ensurePrefixObject]

/-- Witness for C4: default configuration, HeadBucket resolves, the
PutBucketPolicy call rejects. -/
theorem onModuleInit_policy_failure_nonfatal_witness :
    S3Env.ok envPolicyFails (S3Action.putBucketPolicy cfgDefault.bucket
      (S3Service.bucketPolicyJson cfgDefault.bucket)) = false ∧
    (S3Service.ensureBucketExists envPolicyFails cfgDefault.bucket).2 = true ∧
    ((S3Service.ensureBucketPolicy cfgDefault.bucket).2 = true ∧
     (S3Service.ensurePrefixObject cfgDefault).2 = true ∧
     S3Service.onModuleInit envPolicyFails cfgDefault =
       ((S3Service.ensureBucketExists envPolicyFails cfgDefault.bucket).1
         ++ (S3Service.ensureBucketPolicy cfgDefault.bucket).1
         ++ (S3Service.ensurePrefixObject cfgDefault).1, true)) :=
  ⟨by decide, by decide,
    onModuleInit_policy_failure_nonfatal envPolicyFails cfgDefault
      (by decide) (by decide)⟩

/-- C5: the bootstrap issues exactly HeadBucket, CreateBucket only when
HeadBucket rejects, then PutBucketPolicy, then a zero-byte upload at the
'/'-terminated image prefix, awaited in that order, each at most once
(a CreateBucket rejection aborts the remaining steps). -/
theorem onModuleInit_three_steps (env : S3Env) (cfg : S3Config) :
    S3Service.onModuleInit env cfg =
      if env.ok (S3Action.headBucket cfg.bucket) then
        ([S3Action.headBucket cfg.bucket,
          S3Action.putBucketPolicy cfg.bucket (S3Service.bucketPolicyJson cfg.bucket),
          S3Action.putObject cfg.bucket
            (if endsWithChar '/' (S3Config.imagePrefix cfg) then S3Config.imagePrefix cfg
             else S3Config.imagePrefix cfg ++ lit "/") []], true)
      else if env.ok (S3Action.createBucket cfg.bucket) then
        ([S3Action.headBucket cfg.bucket, S3Action.createBucket cfg.bucket,
          S3Action.putBucketPolicy cfg.bucket (S3Service.bucketPolicyJson cfg.bucket),
          S3Action.putObject cfg.bucket
            (if endsWithChar '/' (S3Config.imagePrefix cfg) then S3Config.imagePrefix cfg
             else S3Config.imagePrefix cfg ++ lit "/") []], true)
      else ([S3Action.headBucket cfg.bucket, S3Action.createBucket cfg.bucket], false) := by
  by_cases h1 : env.ok (S3Action.headBucket cfg.bucket)
  · simp [S3Service.onModuleInit, S3Service.andThen, S3Service.ensureBucketExists,
      S3Service.ensureBucketPolicy, S3Service.ensurePrefixObject, h1]
  · by_cases h2 : env.ok (S3Action.createBucket cfg.bucket)
    · simp [S3Service.onModuleInit, S3Service.andThen, S3Service.ensureBucketExists,
        S3Service.ensureBucketPolicy, S3Service.ensurePrefixObject, h1, h2]
    · simp [S3Service.onModuleInit, S3Service.andThen, S3Service.ensureBucketExists,
        S3Service.ensureBucketPolicy, S3Service.ensurePrefixObject, h1, h2]

/-- C7: each getter with a declared default returns it when the variable
is unset or trims to empty (jwt.secret 'changeme', jwt.expiresIn '720h',
s3.bucket 'jinaq-media', nodeEnv 'development'), and isProduction holds
exactly when nodeEnv is 'production'. -/
theorem config_blank_defaults (e : EnvVars)
    (hs : blankVar e.jwtSecretVar) (he : blankVar e.jwtExpirationVar)
    (hb : blankVar e.s3BucketVar) (hn : blankVar e.nodeEnvironmentVar) :
    (AppConfigService.jwt e).secret = lit "changeme" ∧
    (AppConfigService.jwt e).expiresIn = lit "720h" ∧
    (AppConfigService.s3 e).bucket = lit "jinaq-media" ∧
    AppConfigService.nodeEnv e = lit "development" ∧
    ∀ e₂ : EnvVars,
      AppConfigService.isProduction e₂ = true ↔
        AppConfigService.nodeEnv e₂ = lit "production" := by
  have hget : ∀ (v : Option Str) (d : Str), blankVar v → AppConfigService.get v d = d := by
    intro v d hv
    rcases hv with h | ⟨s, rfl, hs0⟩
    · rw [h]; rfl
    · simp [AppConfigService.get, AppConfigService.getRaw, hs0]
  refine ⟨hget _ _ hs, hget _ _ he, hget _ _ hb, hget _ _ hn, ?_⟩
  intro e₂
  simp [AppConfigService.isProduction]

/-- Witness for C7 at the all-unset environment. -/
theorem config_blank_defaults_witness :
    (AppConfigService.jwt envAllNone).secret = lit "changeme" ∧
    (AppConfigService.jwt envAllNone).expiresIn = lit "720h" ∧
    (AppConfigService.s3 envAllNone).bucket = lit "jinaq-media" ∧
    AppConfigService.nodeEnv envAllNone = lit "development" :=
  ⟨(config_blank_defaults envAllNone (Or.inl rfl) (Or.inl rfl) (Or.inl rfl)
      (Or.inl rfl)).1,
   (config_blank_defaults envAllNone (Or.inl rfl) (Or.inl rfl) (Or.inl rfl)
      (Or.inl rfl)).2.1,
   (config_blank_defaults envAllNone (Or.inl rfl) (Or.inl rfl) (Or.inl rfl)
      (Or.inl rfl)).2.2.1,
   (config_blank_defaults envAllNone (Or.inl rfl) (Or.inl rfl) (Or.inl rfl)
      (Or.inl rfl)).2.2.2.1⟩

/-- C2 (amended): the middleware throws 'Invalid Host Header' exactly
when the allow-list is non-empty, a host header is present, and the
port-stripped host is non-empty yet not in the list; otherwise it
proceeds. -/
theorem use_rejects_iff_nonempty_host (allowedHosts : List Str) (hostHeader : Option Str) :
    (SecurityMiddleware.use allowedHosts hostHeader =
        MiddlewareResult.badRequest (lit "Invalid Host Header") ↔
      allowedHosts ≠ [] ∧ ∃ s, hostHeader = some s ∧
        takeUntil ':' s ≠ [] ∧ takeUntil ':' s ∉ allowedHosts) ∧
    (SecurityMiddleware.use allowedHosts hostHeader = MiddlewareResult.proceed ↔
      ¬(allowedHosts ≠ [] ∧ ∃ s, hostHeader = some s ∧
        takeUntil ':' s ≠ [] ∧ takeUntil ':' s ∉ allowedHosts)) := by
  cases hostHeader with
  | none => simp [SecurityMiddleware.use]
  | some s =>
    by_cases hc : (decide (allowedHosts.length > 0) && !(List.isEmpty (takeUntil ':' s))
        && !(allowedHosts.contains (takeUntil ':' s))) = true
    · have hr : SecurityMiddleware.use allowedHosts (some s) =
          MiddlewareResult.badRequest (lit "Invalid Host Header") := by
        simp only [SecurityMiddleware.use, Option.map_some']
        rw [if_pos hc]
      simp at hc
      obtain ⟨⟨h1, h2⟩, h3⟩ := hc
      rw [hr]
      have hp : allowedHosts ≠ [] ∧ ∃ t, (some s : Option Str) = some t ∧
          takeUntil ':' t ≠ [] ∧ takeUntil ':' t ∉ allowedHosts :=
        ⟨List.ne_nil_of_length_pos h1, s, rfl, h2, h3⟩
      constructor
      · exact ⟨fun _ => hp, fun _ => rfl⟩
      · exact ⟨fun h => absurd h (by simp), fun hn => absurd hp hn⟩
    · have hr : SecurityMiddleware.use allowedHosts (some s) =
          MiddlewareResult.proceed := by
        simp only [SecurityMiddleware.use, Option.map_some']
        rw [if_neg hc]
      simp at hc
      rw [hr]
      have hnp : ¬(allowedHosts ≠ [] ∧ ∃ t, (some s : Option Str) = some t ∧
          takeUntil ':' t ≠ [] ∧ takeUntil ':' t ∉ allowedHosts) := by
        rintro ⟨h1, t, ht, h2, h3⟩
        injection ht with ht'
        subst ht'
        exact absurd (hc (List.length_pos.mpr h1) h2) h3
      constructor
      · exact ⟨fun h => absurd h (by simp), fun hp => absurd hp hnp⟩
      · exact ⟨fun _ => hnp, fun _ => rfl⟩

/-- C2 counterexample: with allow-list ['example.com'] and host header
':8080', the claimed rejection condition holds (the stripped host '' is
not in the list) yet the middleware proceeds, because an empty stripped
host is falsy in JavaScript and skips the check. -/
theorem use_host_claim_counterexample :
    ¬ (∀ (allowedHosts : List Str) (hostHeader : Option Str),
        SecurityMiddleware.use allowedHosts hostHeader =
          MiddlewareResult.badRequest (lit "Invalid Host Header") ↔
        hostRejectSpec allowedHosts hostHeader) := by
  intro hclaim
  have h := (hclaim [lit "example.com"] (some (lit ":8080"))).mpr
    ⟨by decide, lit ":8080", rfl, by decide⟩
  exact absurd h (by decide)

/-! ## Lemmas about trim and split, used to settle the configuration
claims: trimming the whole string before splitting is absorbed by
per-segment trimming. -/

theorem trimRight_cons_of_nil {c : Char} {rest : Str} (h : trimRight rest = []) :
    trimRight (c :: rest) = if jsWS c then [] else [c] := by
  simp only [trimRight, h]

theorem trimRight_cons_of_ne {c : Char} {rest : Str} (h : trimRight rest ≠ []) :
    trimRight (c :: rest) = c :: trimRight rest := by
  cases hr : trimRight rest with
  | nil => exact absurd hr h
  | cons a as => simp only [trimRight, hr]

theorem splitCh_cons_self (sep : Char) (rest : Str) :
    splitCh sep (sep :: rest) = [] :: splitCh sep rest := by
  simp [splitCh]

theorem splitCh_cons_ne {sep c : Char} (h : ¬ c = sep) (rest : Str) {a : Str}
    {as : List Str} (hs : splitCh sep rest = a :: as) :
    splitCh sep (c :: rest) = (c :: a) :: as := by
  simp only [splitCh, if_neg h, hs]

theorem splitCh_ne_nil (sep : Char) : ∀ s : Str, splitCh sep s ≠ []
  | [] => by simp [splitCh]
  | c :: rest => by
    by_cases h : c = sep
    · subst h
      rw [splitCh_cons_self]
      simp
    · cases hs : splitCh sep rest with
      | nil => exact absurd hs (splitCh_ne_nil sep rest)
      | cons a as =>
        rw [splitCh_cons_ne h rest hs]
        simp

theorem splitCh_eq_singleton {sep : Char} :
    ∀ {s x : Str}, splitCh sep s = [x] → s = x := by
  intro s
  induction s with
  | nil =>
    intro x h
    simp only [splitCh] at h
    exact (List.cons.injEq _ _ _ _ ▸ h).1.symm ▸ rfl
  | cons c rest ih =>
    intro x h
    by_cases hc : c = sep
    · subst hc
      rw [splitCh_cons_self] at h
      injection h with h1 h2
      exact absurd h2 (splitCh_ne_nil c rest)
    · cases hs : splitCh sep rest with
      | nil => exact absurd hs (splitCh_ne_nil sep rest)
      | cons a as =>
        rw [splitCh_cons_ne hc rest hs] at h
        injection h with h1 h2
        subst h2
        have hr : rest = a := ih hs
        rw [← h1, hr]

theorem splitCh_of_not_mem {sep : Char} : ∀ {s : Str}, sep ∉ s → splitCh sep s = [s]
  | [], _ => rfl
  | c :: rest, h => by
    rw [List.mem_cons] at h
    push_neg at h
    obtain ⟨h1, h2⟩ := h
    have hs := splitCh_of_not_mem h2
    rw [splitCh_cons_ne (fun he => h1 he.symm) rest hs]

theorem trimRight_eq_nil_iff : ∀ s : Str, trimRight s = [] ↔ ∀ c ∈ s, jsWS c = true
  | [] => by simp [trimRight]
  | c :: rest => by
    constructor
    · intro h
      cases hr : trimRight rest with
      | nil =>
        rw [trimRight_cons_of_nil hr] at h
        by_cases hw : jsWS c
        · intro x hx
          rcases List.mem_cons.mp hx with hx' | hx'
          · rw [hx']; exact hw
          · exact (trimRight_eq_nil_iff rest).mp hr x hx'
        · rw [if_neg hw] at h
          cases h
      | cons a as =>
        have hne : trimRight rest ≠ [] := by rw [hr]; simp
        rw [trimRight_cons_of_ne hne] at h
        cases h
    · intro h
      have hr : trimRight rest = [] :=
        (trimRight_eq_nil_iff rest).mpr (fun x hx => h x (List.mem_cons_of_mem c hx))
      rw [trimRight_cons_of_nil hr, if_pos (h c (List.mem_cons_self c rest))]

theorem trimRight_idem : ∀ s : Str, trimRight (trimRight s) = trimRight s
  | [] => rfl
  | c :: rest => by
    cases hr : trimRight rest with
    | nil =>
      rw [trimRight_cons_of_nil hr]
      by_cases hw : jsWS c
      · rw [if_pos hw]; rfl
      · rw [if_neg hw, trimRight_cons_of_nil (show trimRight [] = [] from rfl),
          if_neg hw]
    | cons a as =>
      have hne : trimRight rest ≠ [] := by rw [hr]; simp
      have h2 : trimRight (trimRight rest) = trimRight rest := trimRight_idem rest
      rw [trimRight_cons_of_ne hne,
        trimRight_cons_of_ne (by rw [h2]; exact hne), h2]

theorem trimLeft_cons_ws {c : Char} (hw : jsWS c = true) (rest : Str) :
    trimLeft (c :: rest) = trimLeft rest := by
  simp [trimLeft, List.dropWhile_cons, hw]

theorem trimLeft_cons_not_ws {c : Char} (hw : ¬ jsWS c = true) (rest : Str) :
    trimLeft (c :: rest) = c :: rest := by
  simp only [trimLeft, List.dropWhile_cons]
  rw [if_neg hw]

theorem trimLeft_idem : ∀ s : Str, trimLeft (trimLeft s) = trimLeft s
  | [] => rfl
  | c :: rest => by
    by_cases hw : jsWS c
    · rw [trimLeft_cons_ws hw rest]
      exact trimLeft_idem rest
    · rw [trimLeft_cons_not_ws hw rest, trimLeft_cons_not_ws hw rest]

theorem trimLeft_eq_nil_of_all_ws {s : Str} (h : ∀ c ∈ s, jsWS c = true) :
    trimLeft s = [] := by
  simp only [trimLeft]
  induction s with
  | nil => rfl
  | cons c rest ih =>
    rw [List.dropWhile_cons, if_pos (h c (List.mem_cons_self c rest))]
    exact ih (fun x hx => h x (List.mem_cons_of_mem c hx))

theorem trimLeft_trimRight : ∀ s : Str, trimLeft (trimRight s) = trimRight (trimLeft s)
  | [] => rfl
  | c :: rest => by
    by_cases hw : jsWS c
    · rw [trimLeft_cons_ws hw rest]
      cases hr : trimRight rest with
      | nil =>
        rw [trimRight_cons_of_nil hr, if_pos hw]
        have hall := (trimRight_eq_nil_iff rest).mp hr
        rw [trimLeft_eq_nil_of_all_ws hall]
        rfl
      | cons a as =>
        have hne : trimRight rest ≠ [] := by rw [hr]; simp
        rw [trimRight_cons_of_ne hne, trimLeft_cons_ws hw (trimRight rest)]
        exact trimLeft_trimRight rest
    · rw [trimLeft_cons_not_ws hw rest]
      cases hr : trimRight rest with
      | nil =>
        rw [trimRight_cons_of_nil hr, if_neg hw, trimLeft_cons_not_ws hw []]
      | cons a as =>
        have hne : trimRight rest ≠ [] := by rw [hr]; simp
        rw [trimRight_cons_of_ne hne, trimLeft_cons_not_ws hw (trimRight rest)]

theorem trim_trimRight (s : Str) : trim (trimRight s) = trim s := by
  unfold trim
  rw [trimLeft_trimRight, trimRight_idem]

theorem trim_trimLeft (s : Str) : trim (trimLeft s) = trim s := by
  unfold trim
  rw [trimLeft_idem]

theorem trim_eq_nil_iff (s : Str) : trim s = [] ↔ ∀ c ∈ s, jsWS c = true := by
  unfold trim
  rw [trimRight_eq_nil_iff]
  constructor
  · intro h c hc
    rw [← List.takeWhile_append_dropWhile (p := jsWS) (l := s), List.mem_append] at hc
    rcases hc with hc | hc
    · exact List.mem_takeWhile_imp hc
    · exact h c hc
  · intro h c hc
    exact h c ((List.dropWhile_sublist jsWS).subset hc)

/-- The last segment of a non-empty segment list. -/
def lastSeg : List Str → Str
  | [] => []
  | [x] => x
  | _ :: x :: xs => lastSeg (x :: xs)

theorem dropLast_append_lastSeg : ∀ l : List Str, l ≠ [] → l.dropLast ++ [lastSeg l] = l
  | [], h => absurd rfl h
  | [x], _ => rfl
  | a :: x :: xs, _ => by
    have ih := dropLast_append_lastSeg (x :: xs) (by simp)
    show a :: ((x :: xs).dropLast ++ [lastSeg (x :: xs)]) = a :: x :: xs
    rw [ih]

theorem splitCh_trimRight {sep : Char} (hsep : jsWS sep = false) :
    ∀ s : Str, splitCh sep (trimRight s) =
      (splitCh sep s).dropLast ++ [trimRight (lastSeg (splitCh sep s))]
  | [] => rfl
  | c :: rest => by
    by_cases hc : c = sep
    · subst hc
      cases hr : trimRight rest with
      | nil =>
        have hnsep : ¬ jsWS c = true := by rw [hsep]; simp
        rw [trimRight_cons_of_nil hr, if_neg hnsep]
        have hall := (trimRight_eq_nil_iff rest).mp hr
        have hnm : c ∉ rest := fun hmem => hnsep (hall c hmem)
        rw [splitCh_cons_self c rest, splitCh_of_not_mem hnm,
          splitCh_cons_self c []]
        show ([] : Str) :: splitCh c [] =
          ([[], rest] : List Str).dropLast ++ [trimRight rest]
        rw [hr]
        rfl
      | cons a as =>
        have hne : trimRight rest ≠ [] := by rw [hr]; simp
        rw [trimRight_cons_of_ne hne, splitCh_cons_self c (trimRight rest),
          splitCh_cons_self c rest, splitCh_trimRight hsep rest]
        cases hS : splitCh c rest with
        | nil => exact absurd hS (splitCh_ne_nil c rest)
        | cons b bs => rfl
    · cases hS : splitCh sep rest with
      | nil => exact absurd hS (splitCh_ne_nil sep rest)
      | cons a as =>
        have hsplit := splitCh_cons_ne hc rest hS
        cases hr : trimRight rest with
        | nil =>
          have hall := (trimRight_eq_nil_iff rest).mp hr
          have hnm : sep ∉ rest := fun hmem => by
            have hx := hall sep hmem
            rw [hsep] at hx
            cases hx
          have hrest : splitCh sep rest = [rest] := splitCh_of_not_mem hnm
          rw [hrest] at hS
          injection hS with hS1 hS2
          by_cases hw : jsWS c
          · rw [trimRight_cons_of_nil hr, if_pos hw, hsplit, ← hS2, ← hS1]
            show ([[]] : List Str) = [] ++ [trimRight (c :: rest)]
            rw [trimRight_cons_of_nil hr, if_pos hw]
            rfl
          · rw [trimRight_cons_of_nil hr, if_neg hw, hsplit, ← hS2, ← hS1]
            rw [splitCh_cons_ne hc [] (show splitCh sep [] = [] :: [] from rfl)]
            show ([[c]] : List Str) = [] ++ [trimRight (c :: rest)]
            rw [trimRight_cons_of_nil hr, if_neg hw]
            rfl
        | cons b bs =>
          have hne : trimRight rest ≠ [] := by rw [hr]; simp
          rw [trimRight_cons_of_ne hne]
          have hIH := splitCh_trimRight hsep rest
          rw [hS] at hIH
          cases as with
          | nil =>
            have hra : rest = a := splitCh_eq_singleton hS
            have hIH2 : splitCh sep (trimRight rest) = trimRight a :: [] := by
              rw [hIH]
              rfl
            rw [splitCh_cons_ne hc (trimRight rest) hIH2, hsplit]
            have htr : trimRight (c :: a) = c :: trimRight a := by
              refine trimRight_cons_of_ne ?_
              rw [← hra]
              exact hne
            show [c :: trimRight a] = [] ++ [trimRight (c :: a)]
            rw [htr]
            rfl
          | cons a2 as2 =>
            have hd : (a :: a2 :: as2).dropLast = a :: (a2 :: as2).dropLast := rfl
            have hl : lastSeg (a :: a2 :: as2) = lastSeg (a2 :: as2) := rfl
            rw [hd, hl, List.cons_append] at hIH
            rw [splitCh_cons_ne hc (trimRight rest) hIH, hsplit]
            rfl

theorem splitCh_trimLeft {sep : Char} (hsep : jsWS sep = false) :
    ∀ s : Str, splitCh sep (trimLeft s) =
      trimLeft ((splitCh sep s).headI) :: (splitCh sep s).tail
  | [] => rfl
  | c :: rest => by
    by_cases hw : jsWS c
    · have hc : ¬ c = sep := fun he => by
        rw [he, hsep] at hw
        cases hw
      cases hS : splitCh sep rest with
      | nil => exact absurd hS (splitCh_ne_nil sep rest)
      | cons a as =>
        rw [trimLeft_cons_ws hw rest, splitCh_trimLeft hsep rest, hS,
          splitCh_cons_ne hc rest hS]
        show trimLeft a :: as = trimLeft (c :: a) :: as
        rw [trimLeft_cons_ws hw a]
    · rw [trimLeft_cons_not_ws hw rest]
      by_cases hc : c = sep
      · subst hc
        rw [splitCh_cons_self c rest]
        rfl
      · cases hS : splitCh sep rest with
        | nil => exact absurd hS (splitCh_ne_nil sep rest)
        | cons a as =>
          rw [splitCh_cons_ne hc rest hS]
          show (c :: a) :: as = trimLeft (c :: a) :: as
          rw [trimLeft_cons_not_ws hw a]

theorem map_trim_splitCh_trimRight {sep : Char} (hsep : jsWS sep = false) (s : Str) :
    (splitCh sep (trimRight s)).map trim = (splitCh sep s).map trim := by
  rw [splitCh_trimRight hsep s, List.map_append]
  have h1 : ([trimRight (lastSeg (splitCh sep s))] : List Str).map trim =
      [trim (lastSeg (splitCh sep s))] := by
    simp [trim_trimRight]
  rw [h1]
  have h2 : ([lastSeg (splitCh sep s)] : List Str).map trim =
      [trim (lastSeg (splitCh sep s))] := by simp
  rw [← h2, ← List.map_append,
    dropLast_append_lastSeg (splitCh sep s) (splitCh_ne_nil sep s)]

theorem map_trim_splitCh_trimLeft {sep : Char} (hsep : jsWS sep = false) (s : Str) :
    (splitCh sep (trimLeft s)).map trim = (splitCh sep s).map trim := by
  rw [splitCh_trimLeft hsep s]
  cases hS : splitCh sep s with
  | nil => exact absurd hS (splitCh_ne_nil sep s)
  | cons a as =>
    show trim (trimLeft a) :: as.map trim = trim a :: as.map trim
    rw [trim_trimLeft]

theorem map_trim_splitCh_trim {sep : Char} (hsep : jsWS sep = false) (s : Str) :
    (splitCh sep (trim s)).map trim = (splitCh sep s).map trim := by
  show (splitCh sep (trimRight (trimLeft s))).map trim = (splitCh sep s).map trim
  rw [map_trim_splitCh_trimRight hsep, map_trim_splitCh_trimLeft hsep]

/-- The allowed-hosts list exactly as the specification describes it:
the raw variable split on ',', entries trimmed, empties removed. -/
def allowedHostsSpec (v : Option Str) : List Str :=
  ((splitCh ',' (v.getD (lit ""))).map trim).filter (fun x => !x.isEmpty)

/-- The CORS-origins list exactly as the specification describes it:
the raw variable split on ',' with no trimming at all. -/
def corsSplitSpec (v : Option Str) : List Str := splitCh ',' (v.getD (lit ""))

/-- An environment whose CORS variable carries surrounding whitespace. -/
def envCorsSpace : EnvVars :=
  { envAllNone with securityCorsOriginsVar := some (lit " a,b ") }

/-- C6 (amended): allowedHosts equals the raw variable split on ',' with
entries trimmed and empties removed (the getter's whole-string trim is
absorbed); backendCorsOrigins is the getter's value — the raw variable
trimmed as a whole, with blank treated as unset — split on ',' with no
per-entry trimming and no removal of empties. -/
theorem security_allowedHosts_as_claimed (e : EnvVars) :
    (AppConfigService.security e).allowedHosts =
      allowedHostsSpec e.securityAllowedHostsVar ∧
    (AppConfigService.security e).backendCorsOrigins =
      splitCh ',' (AppConfigService.get e.securityCorsOriginsVar (lit "")) := by
  refine ⟨?_, rfl⟩
  show ((splitCh ',' (AppConfigService.get e.securityAllowedHostsVar (lit ""))).map
      trim).filter (fun x => !x.isEmpty) = allowedHostsSpec e.securityAllowedHostsVar
  cases hv : e.securityAllowedHostsVar with
  | none => rfl
  | some s =>
    unfold allowedHostsSpec
    simp only [Option.getD_some]
    by_cases hb : (trim s).isEmpty
    · have hnil : trim s = [] := by simpa using hb
      have hall : ∀ c ∈ s, jsWS c = true := (trim_eq_nil_iff s).mp hnil
      have hnm : (',' : Char) ∉ s := fun hmem => by
        have hx := hall ',' hmem
        have hws : jsWS ',' = false := rfl
        rw [hws] at hx
        cases hx
      have hg : AppConfigService.get (some s) (lit "") = lit "" := by
        simp [AppConfigService.get, AppConfigService.getRaw, hb]
      rw [hg, splitCh_of_not_mem hnm]
      show (((splitCh ',' (lit "")).map trim).filter (fun x => !x.isEmpty)) =
        ([s].map trim).filter (fun x => !x.isEmpty)
      rw [show ([s].map trim) = [trim s] from rfl, hnil]
      rfl
    · have hg : AppConfigService.get (some s) (lit "") = trim s := by
        simp [AppConfigService.get, AppConfigService.getRaw, hb]
      rw [hg, map_trim_splitCh_trim (show jsWS ',' = false from rfl) s]

/-- C6 counterexample: with SECURITY_BACKEND_CORS_ORIGINS set to
' a,b ', the service yields ['a','b'] (the getter trims the whole
value first), not the claimed untrimmed split [' a','b ']. -/
theorem security_cors_claim_counterexample :
    (AppConfigService.security envCorsSpace).backendCorsOrigins ≠
      corsSplitSpec envCorsSpace.securityCorsOriginsVar := by decide
